import Mathlib

/-!
Verification of the options-platform core (Black-Scholes pricer, Greeks, implied-volatility
solver, delta hedging, P&L attribution) against its specification.

The Python sources are shallowly embedded: floating-point arithmetic is modelled over the
real numbers, scipy.stats.norm.cdf/pdf by the standard normal CDF/density,
scipy.optimize.brentq by its documented contract (a root of a bracketing function within
xtol), raised ValueError exceptions by an Except-valued result, and the SQLAlchemy session
by an explicit record state.  Market-data lookups (get_stock_price and friends) are passed
in as explicit arguments.
-/

open MeasureTheory Set
open scoped Classical

/-- The Gaussian kernel exp (-t^2/2), the integrand of the standard normal CDF. -/
noncomputable def gaussKernel (t : ℝ) : ℝ := Real.exp (-t ^ 2 / 2)

/-- Standard normal density, the embedding of scipy.stats.norm.pdf. -/
noncomputable def norm_pdf (x : ℝ) : ℝ := Real.exp (-x ^ 2 / 2) / Real.sqrt (2 * Real.pi)

/-- Standard normal cumulative distribution, the embedding of scipy.stats.norm.cdf. -/
noncomputable def norm_cdf (x : ℝ) : ℝ :=
  (∫ t in Iic x, gaussKernel t) / Real.sqrt (2 * Real.pi)

/-- Option kind: the two valid values of the option_type string in the source.
(Any other string raises ValueError in the source; the ADT covers the valid domain.) -/
inductive OptKind where
  | call
  | put
  deriving DecidableEq, BEq

/-- The error taxonomy of the spec (section 7).  The source raises ValueError with a
message; the spec classifies validation failures as InvalidInput and solver failures as
ConvergenceFailure, distinguishable by their messages. -/
inductive PlatformError where
  | invalidInput (msg : String)
  | convergenceError (msg : String)
  deriving DecidableEq

/-- d1 of the Black-Scholes formula (models/black_scholes.py line 49). -/
noncomputable def d1 (S K T r sigma q : ℝ) : ℝ :=
  (Real.log (S / K) + (r - q + sigma ^ 2 / 2) * T) / (sigma * Real.sqrt T)

/-- d2 of the Black-Scholes formula (models/black_scholes.py line 50). -/
noncomputable def d2 (S K T r sigma q : ℝ) : ℝ :=
  d1 S K T r sigma q - sigma * Real.sqrt T

/-- The Black-Scholes closed form (models/black_scholes.py lines 53-56), the value
returned on the branch T > 0, sigma > 0. -/
noncomputable def bs_formula (S K T r sigma : ℝ) (kind : OptKind) (q : ℝ) : ℝ :=
  match kind with
  | .call =>
      S * Real.exp (-q * T) * norm_cdf (d1 S K T r sigma q) -
        K * Real.exp (-r * T) * norm_cdf (d2 S K T r sigma q)
  | .put =>
      K * Real.exp (-r * T) * norm_cdf (-d2 S K T r sigma q) -
        S * Real.exp (-q * T) * norm_cdf (-d1 S K T r sigma q)

/-- black_scholes_price (models/black_scholes.py lines 12-60).  T <= 0 returns intrinsic
value; then sigma <= 0 raises ValueError; otherwise the closed form. -/
noncomputable def black_scholes_price (S K T r sigma : ℝ) (kind : OptKind) (q : ℝ) :
    Except PlatformError ℝ :=
  if T ≤ 0 then
    .ok (match kind with
      | .call => max 0 (S - K)
      | .put => max 0 (K - S))
  else if sigma ≤ 0 then .error (.invalidInput "Volatility must be positive")
  else .ok (bs_formula S K T r sigma kind q)

/-- delta (models/greeks.py lines 47-87). -/
noncomputable def delta (S K T r sigma : ℝ) (kind : OptKind) (q : ℝ) : ℝ :=
  if T ≤ 0 then
    match kind with
    | .call => if K < S then 1 else 0
    | .put => if S < K then -1 else 0
  else
    match kind with
    | .call => Real.exp (-q * T) * norm_cdf (d1 S K T r sigma q)
    | .put => Real.exp (-q * T) * (norm_cdf (d1 S K T r sigma q) - 1)

/-- gamma (models/greeks.py lines 90-124); identical for calls and puts. -/
noncomputable def gamma (S K T r sigma q : ℝ) : ℝ :=
  if T ≤ 0 then 0
  else Real.exp (-q * T) * norm_pdf (d1 S K T r sigma q) / (S * sigma * Real.sqrt T)

/-- vega (models/greeks.py lines 127-165); reported per 1 percentage point of vol. -/
noncomputable def vega (S K T r sigma q : ℝ) : ℝ :=
  if T ≤ 0 then 0
  else S * Real.exp (-q * T) * norm_pdf (d1 S K T r sigma q) * Real.sqrt T / 100

/-- theta (models/greeks.py lines 168-216); reported per calendar day. -/
noncomputable def theta (S K T r sigma : ℝ) (kind : OptKind) (q : ℝ) : ℝ :=
  if T ≤ 0 then 0
  else
    let d1v := d1 S K T r sigma q
    let d2v := d2 S K T r sigma q
    let term1 := -(S * Real.exp (-q * T) * norm_pdf d1v * sigma) / (2 * Real.sqrt T)
    match kind with
    | .call =>
        (term1 + q * S * Real.exp (-q * T) * norm_cdf d1v +
          -(r * K * Real.exp (-r * T) * norm_cdf d2v)) / 365
    | .put =>
        (term1 + -(q * S * Real.exp (-q * T) * norm_cdf (-d1v)) +
          r * K * Real.exp (-r * T) * norm_cdf (-d2v)) / 365

/-- rho (models/greeks.py lines 219-260); reported per 1 percentage point of rate. -/
noncomputable def rho (S K T r sigma : ℝ) (kind : OptKind) (q : ℝ) : ℝ :=
  if T ≤ 0 then 0
  else
    match kind with
    | .call => K * T * Real.exp (-r * T) * norm_cdf (d2 S K T r sigma q) / 100
    | .put => -(K * T * Real.exp (-r * T) * norm_cdf (-d2 S K T r sigma q)) / 100

/-- The no-arbitrage floor computed by implied_volatility
(models/black_scholes.py lines 147-152). -/
noncomputable def iv_intrinsic (S K T r q : ℝ) (kind : OptKind) : ℝ :=
  match kind with
  | .call => max 0 (S * Real.exp (-q * T) - K * Real.exp (-r * T))
  | .put => max 0 (K * Real.exp (-r * T) - S * Real.exp (-q * T))

/-- The objective closed over by implied_volatility (models/black_scholes.py lines
157-161): price minus market price, with a raised exception mapped to a positive junk
value standing in for float('inf').  It is only ever evaluated at sigma >= 0.01 with
T > 0, where no exception occurs. -/
noncomputable def iv_objective (market_price S K T r : ℝ) (kind : OptKind) (q : ℝ)
    (sigma : ℝ) : ℝ :=
  match black_scholes_price S K T r sigma kind q with
  | .ok p => p - market_price
  | .error _ => 1

/-- Model of the scipy.optimize.brentq contract used at models/black_scholes.py line 165:
when the bracket [a, b] carries a sign change and a root, it converges to a root of f to
within xtol; when f(a) and f(b) have the same nonzero sign (or no root exists) it raises
ValueError, which the source catches to fall back to Newton-Raphson. -/
noncomputable def brentq (f : ℝ → ℝ) (a b xtol : ℝ) : Option ℝ :=
  if h : ∃ y, (∃ x, x ∈ Icc a b ∧ f x = 0 ∧ |y - x| ≤ xtol) ∧ f a * f b ≤ 0 then
    some h.choose
  else none

/-- The Newton-Raphson fallback loop of implied_volatility (models/black_scholes.py lines
169-193), fuelled by the remaining iteration count.  black_scholes_price inside the loop
is replaced by the closed form: the loop maintains sigma > 0 (the clamp at line 190-191)
and is entered only with T > 0, so the priced branch is always the formula. -/
noncomputable def newton_iv_loop (market_price S K T r q : ℝ) (kind : OptKind)
    (tolerance : ℝ) : ℕ → ℝ → Except PlatformError ℝ
  | 0, _ => .error (.convergenceError "Failed to converge after 100 iterations")
  | n + 1, sigma =>
      let d1v := d1 S K T r sigma q
      let vega_raw := S * Real.exp (-q * T) * norm_pdf d1v * Real.sqrt T
      if vega_raw < 1e-10 then .error (.convergenceError "Vega too small, cannot converge")
      else
        let price_diff := bs_formula S K T r sigma kind q - market_price
        if |price_diff| < tolerance then .ok sigma
        else
          let sigma1 := sigma - price_diff / vega_raw
          newton_iv_loop market_price S K T r q kind tolerance n
            (if sigma1 ≤ 0 then 0.01 else sigma1)

/-- implied_volatility (models/black_scholes.py lines 110-193), with the default
arguments initial_sigma = 0.3, max_iterations = 100, tolerance = 1e-6 inlined. -/
noncomputable def implied_volatility (market_price S K T r : ℝ) (kind : OptKind) (q : ℝ) :
    Except PlatformError ℝ :=
  if T ≤ 0 then .error (.invalidInput "Cannot calculate IV for expired options")
  else if market_price < iv_intrinsic S K T r q kind then
    .error (.invalidInput "Market price below intrinsic value")
  else
    match brentq (iv_objective market_price S K T r kind q) 0.01 5.0 1e-6 with
    | some iv => .ok iv
    | none => newton_iv_loop market_price S K T r q kind 1e-6 100 0.3

/-- Position status (data/database.py: status in {open, closed, expired}).
Constructor names carry a Pos suffix because open is a Lean keyword. -/
inductive PosStatus where
  | openPos
  | closedPos
  | expiredPos
  deriving DecidableEq, BEq

/-- A Hedge row (data/database.py), as created by DeltaHedger.execute_hedge. -/
structure HedgeRec where
  position_id : ℕ
  hedge_quantity : ℝ
  hedge_price : ℝ
  transaction_cost : ℝ
  delta_before : ℝ
  delta_after : ℝ
  underlying_price : ℝ
  hedge_type : String

/-- A Position row (data/database.py), with its owned hedge collection inlined
(the position.hedges ORM relation). Dates are modelled as day counts, so that
expiration - today is the days_to_expiry integer of the source. -/
structure Position where
  id : ℕ
  symbol : String
  option_type : OptKind
  strike : ℝ
  expiration : ℤ
  quantity : ℤ
  premium_collected : ℝ
  entry_price : ℝ
  implied_vol : ℝ
  risk_free_rate : ℝ
  dividend_yield : ℝ
  status : PosStatus
  hedges : List HedgeRec

/-- A Trade row (data/database.py), as created by DeltaHedger.execute_hedge. -/
structure TradeRec where
  position_id : ℕ
  trade_type : String
  symbol : String
  quantity : ℝ
  price : ℝ
  commission : ℝ
  notes : String

/-- The mutable store: Position rows (each owning its hedges) plus Trade rows. -/
structure DBState where
  positions : List Position
  trades : List TradeRec

/-- The market-data collaborator: get_stock_price(symbol)['price'] and the current
date (date.today()) as a day count. -/
structure MarketEnv where
  price : String → ℝ
  today : ℤ

/-- config.OPTIONS_MULTIPLIER; also the multiplier field of Portfolio, DeltaHedger
and PnLTracker (all 100). -/
def OPTIONS_MULTIPLIER : ℝ := 100

/-- config.REHEDGE_THRESHOLD. -/
def REHEDGE_THRESHOLD : ℝ := 0.10

/-- config.STOCK_COMMISSION. -/
def STOCK_COMMISSION : ℝ := 0.01

/-- config.BID_ASK_SPREAD. -/
def BID_ASK_SPREAD : ℝ := 0.01

/-- Portfolio.add_position (models/portfolio.py lines 20-85).  The market-data reads
(entry price, historical vol fallback, risk-free rate) are passed in as arguments;
_check_risk_limits returns True in the source, so no failure path exists.  The
created row is the value committed at line 79-80. -/
def add_position (id0 : ℕ) (symbol : String) (option_type : OptKind) (strike : ℝ)
    (expiration : ℤ) (quantity : ℤ) (premium : ℝ) (implied_vol : ℝ)
    (dividend_yield : ℝ) (current_price : ℝ) (risk_free_rate : ℝ) : Position :=
  { id := id0
    symbol := symbol
    option_type := option_type
    strike := strike
    expiration := expiration
    quantity := quantity
    premium_collected := if quantity < 0 then premium else -premium
    entry_price := current_price
    implied_vol := implied_vol
    risk_free_rate := risk_free_rate
    dividend_yield := dividend_yield
    status := .openPos
    hedges := [] }

/-- The P&L breakdown dict returned by PnLTracker.calculate_position_pnl, restricted
to its numeric P&L fields. -/
structure PositionPnL where
  option_pnl : ℝ
  hedge_pnl : ℝ
  hedge_costs : ℝ
  net_hedge_pnl : ℝ
  unrealized_pnl : ℝ
  realized_pnl : ℝ
  total_pnl : ℝ
  roi : ℝ

/-- PnLTracker.calculate_position_pnl (utils/pnl.py lines 62-133): the P&L arithmetic
given the already-computed current option price (lines 44-59 price the option with
Black-Scholes from market data; the claim under test fixes that price). -/
noncomputable def calculate_position_pnl (pos : Position)
    (current_option_price current_underlying_price : ℝ) : PositionPnL :=
  let option_pnl :=
    if pos.quantity < 0 then
      (pos.premium_collected + current_option_price) * |(pos.quantity : ℝ)| *
        OPTIONS_MULTIPLIER
    else
      (current_option_price - |pos.premium_collected|) * (pos.quantity : ℝ) *
        OPTIONS_MULTIPLIER
  let total_hedge_pnl :=
    (pos.hedges.map fun h => h.hedge_quantity *
      (current_underlying_price - h.hedge_price)).sum
  let total_hedge_costs := (pos.hedges.map fun h => h.transaction_cost).sum
  let unrealized_pnl := option_pnl + total_hedge_pnl
  let realized_pnl := -total_hedge_costs
  let total_pnl := unrealized_pnl + realized_pnl
  let roi :=
    if pos.quantity < 0 then
      let initial_premium :=
        |pos.premium_collected| * |(pos.quantity : ℝ)| * OPTIONS_MULTIPLIER
      if 0 < initial_premium then total_pnl / initial_premium * 100 else 0
    else
      let initial_cost := |pos.premium_collected| * (pos.quantity : ℝ) * OPTIONS_MULTIPLIER
      if 0 < initial_cost then total_pnl / initial_cost * 100 else 0
  { option_pnl := option_pnl
    hedge_pnl := total_hedge_pnl
    hedge_costs := total_hedge_costs
    net_hedge_pnl := total_hedge_pnl - total_hedge_costs
    unrealized_pnl := unrealized_pnl
    realized_pnl := realized_pnl
    total_pnl := total_pnl
    roi := roi }

/-- The dict returned by DeltaHedger.calculate_hedge_requirements. -/
structure HedgeRequirements where
  option_delta : ℝ
  position_delta : ℝ
  current_hedge_shares : ℝ
  net_delta : ℝ
  required_hedge_shares : ℝ
  underlying_price : ℝ
  hedge_value : ℝ
  commission : ℝ
  spread_cost : ℝ
  total_cost : ℝ
  should_rehedge : Bool

/-- DeltaHedger.calculate_hedge_requirements (utils/hedging.py lines 22-88). -/
noncomputable def calculate_hedge_requirements (env : MarketEnv) (pos : Position) :
    HedgeRequirements :=
  let current_price := env.price pos.symbol
  let days_to_expiry : ℤ := pos.expiration - env.today
  let T : ℝ := max ((days_to_expiry : ℝ) / 365.0) 0.0001
  let option_delta :=
    delta current_price pos.strike T pos.risk_free_rate pos.implied_vol
      pos.option_type pos.dividend_yield
  let position_delta := option_delta * (pos.quantity : ℝ) * OPTIONS_MULTIPLIER
  let current_hedge_shares := (pos.hedges.map fun h => h.hedge_quantity).sum
  let net_delta := position_delta + current_hedge_shares
  let required_hedge_shares := -net_delta
  let hedge_value := |required_hedge_shares| * current_price
  let commission := |required_hedge_shares| * STOCK_COMMISSION
  let spread_cost := hedge_value * BID_ASK_SPREAD / 2
  { option_delta := option_delta
    position_delta := position_delta
    current_hedge_shares := current_hedge_shares
    net_delta := net_delta
    required_hedge_shares := required_hedge_shares
    underlying_price := current_price
    hedge_value := hedge_value
    commission := commission
    spread_cost := spread_cost
    total_cost := commission + spread_cost
    should_rehedge :=
      if position_delta ≠ 0 then
        if |net_delta / position_delta| > REHEDGE_THRESHOLD then true else false
      else false }

/-- The Hedge and Trade rows built by DeltaHedger.execute_hedge (utils/hedging.py
lines 90-153) for a given position, before they are committed. -/
noncomputable def execute_hedge_record (env : MarketEnv) (pos : Position)
    (hedge_shares : Option ℝ) (hedge_type : String) : HedgeRec × TradeRec :=
  let hedge_req := calculate_hedge_requirements env pos
  let shares := hedge_shares.getD hedge_req.required_hedge_shares
  let current_price := env.price pos.symbol
  let commission := |shares| * STOCK_COMMISSION
  let hedge_value := |shares| * current_price
  let spread_cost := hedge_value * BID_ASK_SPREAD / 2
  let total_cost := commission + spread_cost
  ({ position_id := pos.id
     hedge_quantity := shares
     hedge_price := current_price
     transaction_cost := total_cost
     delta_before := hedge_req.net_delta
     delta_after := hedge_req.net_delta + shares
     underlying_price := current_price
     hedge_type := hedge_type },
   { position_id := pos.id
     trade_type := "hedge_stock"
     symbol := pos.symbol
     quantity := shares
     price := current_price
     commission := total_cost
     notes := "Delta hedge (" ++ hedge_type ++ ")" })

/-- DeltaHedger.execute_hedge including the session commit: the Hedge row is appended
to the position's hedge collection and the Trade row to the trade log. -/
noncomputable def execute_hedge (env : MarketEnv) (st : DBState) (pos : Position)
    (hedge_shares : Option ℝ) (hedge_type : String) : DBState × HedgeRec :=
  let hr := execute_hedge_record env pos hedge_shares hedge_type
  ({ positions := st.positions.map fun p =>
       if p.id = pos.id then { p with hedges := p.hedges ++ [hr.1] } else p
     trades := st.trades ++ [hr.2] },
   hr.1)

/-- The dict returned by DeltaHedger.check_rehedge_needed.  The source returns two
shapes, a short {needed, reason} dict and a full report; modelled as one record with
optional fields (none when the source omits the key). -/
structure RehedgeCheck where
  needed : Bool
  reason : Option String
  net_delta : Option ℝ
  position_delta : Option ℝ
  threshold : Option ℝ
  delta_quot : Option ℝ
  required_shares : Option ℝ
  cost : Option ℝ

/-- DeltaHedger.check_rehedge_needed (utils/hedging.py lines 155-183).  An unknown id
or a non-open position yields the short dict; there is no raise.  delta_quot models
the delta_ratio key of the source. -/
noncomputable def check_rehedge_needed (env : MarketEnv) (st : DBState)
    (position_id : ℕ) : RehedgeCheck :=
  match st.positions.find? fun p => p.id == position_id with
  | none =>
      { needed := false, reason := some "Position not open", net_delta := none
        position_delta := none, threshold := none, delta_quot := none
        required_shares := none, cost := none }
  | some pos =>
      if pos.status ≠ .openPos then
        { needed := false, reason := some "Position not open", net_delta := none
          position_delta := none, threshold := none, delta_quot := none
          required_shares := none, cost := none }
      else
        let hedge_req := calculate_hedge_requirements env pos
        { needed := hedge_req.should_rehedge
          reason := none
          net_delta := some hedge_req.net_delta
          position_delta := some hedge_req.position_delta
          threshold := some REHEDGE_THRESHOLD
          delta_quot := some (if hedge_req.position_delta ≠ 0 then
            |hedge_req.net_delta / hedge_req.position_delta| else 0)
          required_shares := some hedge_req.required_hedge_shares
          cost := some hedge_req.total_cost }

/-- One recommendation entry of auto_rehedge (position_id, symbol, required_shares,
cost, net_delta). -/
structure RehedgeRecommendation where
  position_id : ℕ
  symbol : String
  required_shares : ℝ
  cost : ℝ
  net_delta : ℝ

/-- One executed entry of auto_rehedge (position_id, shares, cost); the hedge_id
database key is not modelled. -/
structure RehedgeExecuted where
  position_id : ℕ
  shares : ℝ
  cost : ℝ

/-- The summary dict returned by auto_rehedge. -/
structure RehedgeSummary where
  recommendations : List RehedgeRecommendation
  executed : List RehedgeExecuted
  total_recommendations : ℕ
  total_executed : ℕ
  total_cost : ℝ

/-- The loop body of auto_rehedge (utils/hedging.py lines 249-275), folded over the
open positions with the store state threaded through. -/
noncomputable def auto_rehedge_step (env : MarketEnv) (execute : Bool)
    (acc : DBState × List RehedgeRecommendation × List RehedgeExecuted)
    (pos : Position) : DBState × List RehedgeRecommendation × List RehedgeExecuted :=
  let st := acc.1
  let rc := check_rehedge_needed env st pos.id
  if rc.needed then
    let recs := acc.2.1 ++ [{ position_id := pos.id, symbol := pos.symbol
                              required_shares := rc.required_shares.getD 0
                              cost := rc.cost.getD 0
                              net_delta := rc.net_delta.getD 0 }]
    if execute then
      let cur := (st.positions.find? fun p => p.id == pos.id).getD pos
      let res := execute_hedge env st cur none "rebalance"
      (res.1, recs, acc.2.2 ++ [{ position_id := pos.id
                                  shares := res.2.hedge_quantity
                                  cost := res.2.transaction_cost }])
    else (st, recs, acc.2.2)
  else acc

/-- DeltaHedger.auto_rehedge_portfolio (utils/hedging.py lines 230-283); the name
carries a positions suffix here.  Iterates the open positions, collects
recommendations, and only when execute is true calls execute_hedge and reports
executed trades and their total cost. -/
noncomputable def auto_rehedge_positions (env : MarketEnv) (st : DBState)
    (execute : Bool) : DBState × RehedgeSummary :=
  let opens := st.positions.filter fun p => p.status == .openPos
  let res := opens.foldl (auto_rehedge_step env execute) (st, [], [])
  (res.1,
   { recommendations := res.2.1
     executed := if execute then res.2.2 else []
     total_recommendations := res.2.1.length
     total_executed := if execute then res.2.2.length else 0
     total_cost := if execute then (res.2.2.map fun e => e.cost).sum else 0 })

/-! ### Facts about the Gaussian kernel and the standard normal CDF -/

lemma gaussKernel_pos (t : ℝ) : 0 < gaussKernel t := Real.exp_pos _

lemma gaussKernel_even (t : ℝ) : gaussKernel (-t) = gaussKernel t := by
  simp [gaussKernel]

lemma continuous_gaussKernel : Continuous gaussKernel := by
  unfold gaussKernel
  fun_prop

lemma gaussKernel_eq (t : ℝ) : gaussKernel t = Real.exp (-(1 / 2 : ℝ) * t ^ 2) := by
  unfold gaussKernel
  ring_nf

lemma integrable_gaussKernel : Integrable gaussKernel := by
  have h := integrable_exp_neg_mul_sq (by norm_num : (0 : ℝ) < 1 / 2)
  refine h.congr (Filter.Eventually.of_forall fun t => ?_)
  rw [gaussKernel_eq]

lemma integral_gaussKernel : ∫ t, gaussKernel t = Real.sqrt (2 * Real.pi) := by
  have h := integral_gaussian (1 / 2 : ℝ)
  have h2 : ∫ t, gaussKernel t = ∫ t : ℝ, Real.exp (-(1 / 2 : ℝ) * t ^ 2) := by
    refine integral_congr_ae (Filter.Eventually.of_forall fun t => ?_)
    rw [gaussKernel_eq]
  rw [h2, h, show Real.pi / (1 / 2) = 2 * Real.pi by ring]

lemma sqrt_two_pi_pos : 0 < Real.sqrt (2 * Real.pi) :=
  Real.sqrt_pos.mpr (by positivity)

lemma one_le_sqrt_two_pi : 1 ≤ Real.sqrt (2 * Real.pi) := by
  rw [show (1 : ℝ) = Real.sqrt 1 by simp]
  exact Real.sqrt_le_sqrt (by nlinarith [Real.pi_gt_three])

lemma norm_pdf_pos (x : ℝ) : 0 < norm_pdf x :=
  div_pos (Real.exp_pos _) sqrt_two_pi_pos

lemma norm_pdf_eq (x : ℝ) : norm_pdf x = gaussKernel x / Real.sqrt (2 * Real.pi) := rfl

lemma norm_pdf_even (x : ℝ) : norm_pdf (-x) = norm_pdf x := by
  simp [norm_pdf]

lemma norm_cdf_nonneg (x : ℝ) : 0 ≤ norm_cdf x := by
  unfold norm_cdf
  refine div_nonneg (setIntegral_nonneg measurableSet_Iic fun t _ => ?_) sqrt_two_pi_pos.le
  exact (gaussKernel_pos t).le

lemma norm_cdf_add_neg (x : ℝ) : norm_cdf x + norm_cdf (-x) = 1 := by
  unfold norm_cdf
  rw [div_add_div_same, div_eq_one_iff_eq sqrt_two_pi_pos.ne']
  have hrefl : ∫ t in Iic (-x), gaussKernel t = ∫ t in Ioi x, gaussKernel t := by
    have h1 : ∫ t in Iic (-x), gaussKernel t = ∫ t in Iic (-x), gaussKernel (-t) := by
      refine setIntegral_congr_fun measurableSet_Iic fun t _ => ?_
      rw [gaussKernel_even]
    rw [h1, integral_comp_neg_Iic, neg_neg]
  rw [hrefl, intervalIntegral.integral_Iic_add_Ioi integrable_gaussKernel.integrableOn
    integrable_gaussKernel.integrableOn, integral_gaussKernel]

lemma norm_cdf_le_one (x : ℝ) : norm_cdf x ≤ 1 := by
  have h := norm_cdf_add_neg x
  have h2 := norm_cdf_nonneg (-x)
  linarith

lemma norm_cdf_mono : Monotone norm_cdf := by
  intro x y hxy
  unfold norm_cdf
  gcongr
  refine setIntegral_mono_set integrable_gaussKernel.integrableOn
    (Filter.Eventually.of_forall fun t => (gaussKernel_pos t).le) ?_
  exact HasSubset.Subset.eventuallyLE (Iic_subset_Iic.mpr hxy)

lemma norm_cdf_pos (x : ℝ) : 0 < norm_cdf x := by
  unfold norm_cdf
  refine div_pos ?_ sqrt_two_pi_pos
  have hlt : (0 : ℝ) < ∫ t in (x - 1)..x, gaussKernel t := by
    refine intervalIntegral.intervalIntegral_pos_of_pos
      integrable_gaussKernel.intervalIntegrable gaussKernel_pos (by linarith)
  have hle : ∫ t in (x - 1)..x, gaussKernel t ≤ ∫ t in Iic x, gaussKernel t := by
    rw [intervalIntegral.integral_of_le (by linarith : x - 1 ≤ x)]
    refine setIntegral_mono_set integrable_gaussKernel.integrableOn
      (Filter.Eventually.of_forall fun t => (gaussKernel_pos t).le) ?_
    exact HasSubset.Subset.eventuallyLE Ioc_subset_Iic_self
  linarith

lemma hasDerivAt_norm_cdf (x : ℝ) : HasDerivAt norm_cdf (norm_pdf x) x := by
  have hsplit : norm_cdf = fun y =>
      ((∫ t in Iic (0 : ℝ), gaussKernel t) + ∫ t in (0 : ℝ)..y, gaussKernel t) /
        Real.sqrt (2 * Real.pi) := by
    funext y
    unfold norm_cdf
    congr 1
    rw [← intervalIntegral.integral_Iic_sub_Iic integrable_gaussKernel.integrableOn
      integrable_gaussKernel.integrableOn]
    ring
  rw [hsplit]
  have hft : HasDerivAt (fun y => ∫ t in (0 : ℝ)..y, gaussKernel t) (gaussKernel x) x := by
    refine intervalIntegral.integral_hasDerivAt_right
      integrable_gaussKernel.intervalIntegrable
      (continuous_gaussKernel.stronglyMeasurable.stronglyMeasurableAtFilter)
      continuous_gaussKernel.continuousAt
  exact ((hft.const_add _).div_const _)

lemma abs_le_exp_sq_quarter (t : ℝ) : |t| ≤ Real.exp (t ^ 2 / 4) := by
  have h1 : |t| ≤ t ^ 2 / 4 + 1 := by nlinarith [sq_abs t, sq_nonneg (|t| - 2)]
  have h2 : t ^ 2 / 4 + 1 ≤ Real.exp (t ^ 2 / 4) := by
    have := Real.add_one_le_exp (t ^ 2 / 4)
    linarith
  linarith

lemma integrable_id_mul_gaussKernel : Integrable fun t : ℝ => t * gaussKernel t := by
  have hb : Integrable fun t : ℝ => Real.exp (-(1 / 4 : ℝ) * t ^ 2) :=
    integrable_exp_neg_mul_sq (by norm_num)
  refine hb.mono ((continuous_id.mul continuous_gaussKernel).aestronglyMeasurable)
    (Filter.Eventually.of_forall fun t => ?_)
  have hsplit : gaussKernel t = Real.exp (-t ^ 2 / 4) * Real.exp (-t ^ 2 / 4) := by
    rw [← Real.exp_add, gaussKernel]
    ring_nf
  have habs := abs_le_exp_sq_quarter t
  have hmul : |t| * Real.exp (-t ^ 2 / 4) ≤ 1 := by
    have h1 : |t| * Real.exp (-t ^ 2 / 4) ≤ Real.exp (t ^ 2 / 4) * Real.exp (-t ^ 2 / 4) :=
      mul_le_mul_of_nonneg_right habs (Real.exp_nonneg _)
    have h2 : Real.exp (t ^ 2 / 4) * Real.exp (-t ^ 2 / 4) = 1 := by
      rw [← Real.exp_add]
      ring_nf
      exact Real.exp_zero
    linarith
  rw [norm_mul, Real.norm_eq_abs, Real.norm_eq_abs, Real.norm_eq_abs,
    abs_of_pos (gaussKernel_pos t), hsplit, abs_of_pos (Real.exp_pos _)]
  calc |t| * (Real.exp (-t ^ 2 / 4) * Real.exp (-t ^ 2 / 4))
      = (|t| * Real.exp (-t ^ 2 / 4)) * Real.exp (-t ^ 2 / 4) := by ring
    _ ≤ 1 * Real.exp (-t ^ 2 / 4) :=
        mul_le_mul_of_nonneg_right hmul (Real.exp_nonneg _)
    _ = Real.exp (-(1 / 4) * t ^ 2) := by rw [one_mul]; ring_nf

lemma hasDerivAt_neg_gaussKernel (s : ℝ) :
    HasDerivAt (fun t => -gaussKernel t) (s * gaussKernel s) s := by
  have hinner : HasDerivAt (fun t : ℝ => -t ^ 2 / 2) (-s) s := by
    have h1 : HasDerivAt (fun t : ℝ => t ^ 2) (2 * s) s := by
      simpa using hasDerivAt_pow 2 s
    have h2 := (h1.div_const 2).neg
    have h3 : -(2 * s / 2) = -s := by ring
    rw [h3] at h2
    refine h2.congr_deriv rfl |>.congr_of_eventuallyEq ?_
    filter_upwards with t
    ring
  have hexp := hinner.exp
  have h4 := hexp.neg
  have h5 : -(Real.exp (-s ^ 2 / 2) * -s) = s * gaussKernel s := by
    rw [gaussKernel]
    ring
  rw [h5] at h4
  exact h4

lemma tendsto_neg_gaussKernel_atTop :
    Filter.Tendsto (fun t => -gaussKernel t) Filter.atTop (nhds 0) := by
  have h1 : Filter.Tendsto (fun t : ℝ => t ^ 2 / 2) Filter.atTop Filter.atTop := by
    exact (Filter.tendsto_pow_atTop (by norm_num)).atTop_div_const (by norm_num)
  have h2 : Filter.Tendsto (fun t : ℝ => Real.exp (-(t ^ 2 / 2))) Filter.atTop (nhds 0) :=
    Real.tendsto_exp_neg_atTop_nhds_zero.comp h1
  have h3 : (fun t : ℝ => gaussKernel t) = fun t : ℝ => Real.exp (-(t ^ 2 / 2)) := by
    funext t
    rw [gaussKernel, neg_div]
  rw [show (0 : ℝ) = -0 by ring]
  exact (h3 ▸ h2).neg

lemma integral_Ioi_id_mul_gaussKernel (a : ℝ) :
    ∫ t in Ioi a, t * gaussKernel t = gaussKernel a := by
  have hcont : ContinuousWithinAt (fun t => -gaussKernel t) (Ici a) a :=
    continuous_gaussKernel.neg.continuousWithinAt
  have hderiv : ∀ x ∈ Ioi a, HasDerivAt (fun t => -gaussKernel t) (x * gaussKernel x) x :=
    fun x _ => hasDerivAt_neg_gaussKernel x
  have hint : IntegrableOn (fun t => t * gaussKernel t) (Ioi a) :=
    integrable_id_mul_gaussKernel.integrableOn
  have h := integral_Ioi_of_hasDerivAt_of_tendsto hcont hderiv hint
    tendsto_neg_gaussKernel_atTop
  rw [h]
  ring

lemma integral_Iic_neg_mul_gaussKernel (a : ℝ) :
    ∫ t in Iic a, -t * gaussKernel t = gaussKernel a := by
  have h1 : ∫ t in Iic a, -t * gaussKernel t
      = ∫ t in Iic a, (fun s => s * gaussKernel s) (-t) := by
    refine setIntegral_congr_fun measurableSet_Iic fun t _ => ?_
    simp [gaussKernel_even]
  have h2 := integral_comp_neg_Iic a (fun s => s * gaussKernel s)
  rw [h1, h2, integral_Ioi_id_mul_gaussKernel, gaussKernel_even]

/-- Gaussian tail bound: the hazard rate of the standard normal exceeds -x everywhere. -/
lemma neg_mul_norm_cdf_le_norm_pdf (x : ℝ) : -x * norm_cdf x ≤ norm_pdf x := by
  rcases le_or_lt 0 x with hx | hx
  · have h1 : -x * norm_cdf x ≤ 0 :=
      mul_nonpos_of_nonpos_of_nonneg (by linarith) (norm_cdf_nonneg x)
    linarith [norm_pdf_pos x]
  · have hmono : ∫ t in Iic x, -x * gaussKernel t ≤ ∫ t in Iic x, -t * gaussKernel t := by
      refine setIntegral_mono_on (integrable_gaussKernel.integrableOn.const_mul _)
        ((integrable_id_mul_gaussKernel.neg.integrableOn).congr_fun
          (fun t _ => by simp) measurableSet_Iic)
        measurableSet_Iic fun t ht => ?_
      exact mul_le_mul_of_nonneg_right (by linarith [ht.out]) (gaussKernel_pos t).le
    rw [integral_Iic_neg_mul_gaussKernel, integral_mul_left] at hmono
    have hc := sqrt_two_pi_pos
    have hI : ∫ t in Iic x, gaussKernel t = norm_cdf x * Real.sqrt (2 * Real.pi) := by
      rw [norm_cdf]
      field_simp
    rw [hI] at hmono
    rw [norm_pdf_eq, le_div_iff₀ hc]
    linarith

/-- Core comparison inequality behind the no-arbitrage bounds of the Black-Scholes
price: the normal CDF satisfies norm_cdf (u - v) <= exp (2uv) * norm_cdf (u + v)
for v >= 0. -/
lemma norm_cdf_sub_le_exp_mul (u : ℝ) {v : ℝ} (hv : 0 ≤ v) :
    norm_cdf (u - v) ≤ Real.exp (2 * u * v) * norm_cdf (u + v) := by
  set F : ℝ → ℝ := fun w =>
    Real.log (norm_cdf (u + w)) - Real.log (norm_cdf (u - w)) + 2 * u * w with hF_def
  have hF : ∀ w : ℝ, HasDerivAt F
      (norm_pdf (u + w) / norm_cdf (u + w) + norm_pdf (u - w) / norm_cdf (u - w) + 2 * u)
      w := by
    intro w
    have hplus : HasDerivAt (fun s : ℝ => norm_cdf (u + s)) (norm_pdf (u + w) * 1) w := by
      have hin : HasDerivAt (fun s : ℝ => u + s) 1 w := (hasDerivAt_id w).const_add u
      have := (hasDerivAt_norm_cdf (u + w)).comp w hin
      simpa [Function.comp] using this
    have hminus : HasDerivAt (fun s : ℝ => norm_cdf (u - s)) (norm_pdf (u - w) * (0 - 1))
        w := by
      have hin : HasDerivAt (fun s : ℝ => u - s) (0 - 1) w :=
        (hasDerivAt_const w u).sub (hasDerivAt_id w)
      have := (hasDerivAt_norm_cdf (u - w)).comp w hin
      simpa [Function.comp] using this
    have hlog1 := hplus.log (norm_cdf_pos (u + w)).ne'
    have hlog2 := hminus.log (norm_cdf_pos (u - w)).ne'
    have hlin : HasDerivAt (fun s : ℝ => 2 * u * s) (2 * u) w := by
      simpa using (hasDerivAt_id w).const_mul (2 * u)
    have := (hlog1.sub hlog2).add hlin
    convert this using 1
    field_simp
    ring
  have hmono : Monotone F :=
    monotone_of_deriv_nonneg (fun w => (hF w).differentiableAt) (by
      intro w
      rw [(hF w).deriv]
      have h1 : -(u + w) ≤ norm_pdf (u + w) / norm_cdf (u + w) := by
        rw [le_div_iff₀ (norm_cdf_pos (u + w))]
        have := neg_mul_norm_cdf_le_norm_pdf (u + w)
        linarith
      have h2 : -(u - w) ≤ norm_pdf (u - w) / norm_cdf (u - w) := by
        rw [le_div_iff₀ (norm_cdf_pos (u - w))]
        have := neg_mul_norm_cdf_le_norm_pdf (u - w)
        linarith
      linarith)
  have hF0 : F 0 = 0 := by simp [hF_def]
  have hFv : 0 ≤ F v := by
    rw [← hF0]
    exact hmono hv
  have hlog : Real.log (norm_cdf (u - v)) ≤ Real.log (norm_cdf (u + v)) + 2 * u * v := by
    simp only [hF_def] at hFv
    linarith
  calc norm_cdf (u - v) = Real.exp (Real.log (norm_cdf (u - v))) :=
        (Real.exp_log (norm_cdf_pos _)).symm
    _ ≤ Real.exp (Real.log (norm_cdf (u + v)) + 2 * u * v) := Real.exp_le_exp.mpr hlog
    _ = Real.exp (2 * u * v) * norm_cdf (u + v) := by
        rw [Real.exp_add, Real.exp_log (norm_cdf_pos _)]
        ring

/-! ### Analytic facts about the Black-Scholes formula -/

lemma d2_eq (S K T r sigma q : ℝ) :
    d2 S K T r sigma q = d1 S K T r sigma q - sigma * Real.sqrt T := rfl

lemma d1_mul_s {S K T r sigma q : ℝ} (hT : 0 < T) (hs : sigma ≠ 0) :
    d1 S K T r sigma q * (sigma * Real.sqrt T)
      = Real.log (S / K) + (r - q + sigma ^ 2 / 2) * T := by
  unfold d1
  exact div_mul_cancel₀ _ (by positivity)

lemma d_sq_diff {S K T r sigma q : ℝ} (hT : 0 < T) (hs : 0 < sigma) :
    d1 S K T r sigma q ^ 2 - d2 S K T r sigma q ^ 2
      = 2 * (Real.log (S / K) + (r - q) * T) := by
  have hmul := d1_mul_s (S := S) (K := K) (r := r) (q := q) hT hs.ne'
  have hsq : (sigma * Real.sqrt T) ^ 2 = sigma ^ 2 * T := by
    rw [mul_pow, Real.sq_sqrt hT.le]
  rw [d2_eq]
  nlinarith [hmul, hsq]

/-- The classical identity S e^(-qT) phi(d1) = K e^(-rT) phi(d2). -/
lemma bs_pdf_identity {S K T r sigma q : ℝ} (hS : 0 < S) (hK : 0 < K) (hT : 0 < T)
    (hs : 0 < sigma) :
    K * Real.exp (-r * T) * norm_pdf (d2 S K T r sigma q)
      = S * Real.exp (-q * T) * norm_pdf (d1 S K T r sigma q) := by
  have hd := d_sq_diff (S := S) (K := K) (r := r) (q := q) hT hs
  have hL : Real.log (S / K) = Real.log S - Real.log K := Real.log_div hS.ne' hK.ne'
  unfold norm_pdf
  have key : K * Real.exp (-r * T) * Real.exp (-d2 S K T r sigma q ^ 2 / 2)
      = S * Real.exp (-q * T) * Real.exp (-d1 S K T r sigma q ^ 2 / 2) := by
    have e1 : K * Real.exp (-r * T) * Real.exp (-d2 S K T r sigma q ^ 2 / 2)
        = Real.exp (Real.log K + -r * T + -d2 S K T r sigma q ^ 2 / 2) := by
      rw [Real.exp_add, Real.exp_add, Real.exp_log hK]
    have e2 : S * Real.exp (-q * T) * Real.exp (-d1 S K T r sigma q ^ 2 / 2)
        = Real.exp (Real.log S + -q * T + -d1 S K T r sigma q ^ 2 / 2) := by
      rw [Real.exp_add, Real.exp_add, Real.exp_log hS]
    rw [e1, e2]
    congr 1
    nlinarith [hd, hL]
  rw [← mul_div_assoc, ← mul_div_assoc, key]

/-- The Black-Scholes price has positive raw vega: its derivative in sigma is
S e^(-qT) phi(d1) sqrt T, for either option kind. -/
lemma hasDerivAt_bs_formula {S K T r q : ℝ} (hS : 0 < S) (hK : 0 < K) (hT : 0 < T)
    {sigma : ℝ} (hs : 0 < sigma) (kind : OptKind) :
    HasDerivAt (fun s => bs_formula S K T r s kind q)
      (S * Real.exp (-q * T) * norm_pdf (d1 S K T r sigma q) * Real.sqrt T) sigma := by
  have hsT : (0 : ℝ) < Real.sqrt T := Real.sqrt_pos.mpr hT
  have hne : sigma * Real.sqrt T ≠ 0 := (mul_pos hs hsT).ne'
  have hnum : HasDerivAt (fun s : ℝ => Real.log (S / K) + (r - q + s ^ 2 / 2) * T)
      (2 * sigma / 2 * T) sigma := by
    have h1 : HasDerivAt (fun s : ℝ => s ^ 2) (2 * sigma) sigma := by
      simpa using hasDerivAt_pow 2 sigma
    exact (((h1.div_const 2).const_add (r - q)).mul_const T).const_add _
  have hden : HasDerivAt (fun s : ℝ => s * Real.sqrt T) (1 * Real.sqrt T) sigma :=
    (hasDerivAt_id sigma).mul_const _
  obtain ⟨dd1, hd1⟩ : ∃ dd, HasDerivAt (fun s => d1 S K T r s q) dd sigma :=
    ⟨_, hnum.div hden hne⟩
  have hd2 : HasDerivAt (fun s => d2 S K T r s q) (dd1 - 1 * Real.sqrt T) sigma := by
    unfold d2
    exact hd1.sub ((hasDerivAt_id sigma).mul_const _)
  have hc1 : HasDerivAt (fun s => norm_cdf (d1 S K T r s q))
      (norm_pdf (d1 S K T r sigma q) * dd1) sigma := by
    simpa [Function.comp] using (hasDerivAt_norm_cdf (d1 S K T r sigma q)).comp sigma hd1
  have hc2 : HasDerivAt (fun s => norm_cdf (d2 S K T r s q))
      (norm_pdf (d2 S K T r sigma q) * (dd1 - 1 * Real.sqrt T)) sigma := by
    simpa [Function.comp] using (hasDerivAt_norm_cdf (d2 S K T r sigma q)).comp sigma hd2
  have hid := bs_pdf_identity (q := q) (r := r) hS hK hT hs
  cases kind with
  | call =>
      have h := (hc1.const_mul (S * Real.exp (-q * T))).sub
        (hc2.const_mul (K * Real.exp (-r * T)))
      have hfun : (fun s => S * Real.exp (-q * T) * norm_cdf (d1 S K T r s q) -
          K * Real.exp (-r * T) * norm_cdf (d2 S K T r s q))
          = fun s => bs_formula S K T r s OptKind.call q := rfl
      rw [hfun] at h
      convert h using 1
      linear_combination (dd1 - 1 * Real.sqrt T) * hid
  | put =>
      have hn1 : HasDerivAt (fun s => norm_cdf (-d1 S K T r s q))
          (norm_pdf (-d1 S K T r sigma q) * -dd1) sigma := by
        simpa [Function.comp] using
          (hasDerivAt_norm_cdf (-d1 S K T r sigma q)).comp sigma hd1.neg
      have hn2 : HasDerivAt (fun s => norm_cdf (-d2 S K T r s q))
          (norm_pdf (-d2 S K T r sigma q) * -(dd1 - 1 * Real.sqrt T)) sigma := by
        simpa [Function.comp] using
          (hasDerivAt_norm_cdf (-d2 S K T r sigma q)).comp sigma hd2.neg
      have h := (hn2.const_mul (K * Real.exp (-r * T))).sub
        (hn1.const_mul (S * Real.exp (-q * T)))
      have hfun : (fun s => K * Real.exp (-r * T) * norm_cdf (-d2 S K T r s q) -
          S * Real.exp (-q * T) * norm_cdf (-d1 S K T r s q))
          = fun s => bs_formula S K T r s OptKind.put q := rfl
      rw [hfun] at h
      convert h using 1
      rw [norm_pdf_even, norm_pdf_even]
      linear_combination (dd1 - 1 * Real.sqrt T) * hid

/-- The Black-Scholes price is strictly increasing in sigma on (0, infinity). -/
lemma bs_formula_strictMonoOn {S K T r q : ℝ} (hS : 0 < S) (hK : 0 < K) (hT : 0 < T)
    (kind : OptKind) : StrictMonoOn (fun s => bs_formula S K T r s kind q) (Ioi 0) := by
  refine strictMonoOn_of_deriv_pos (convex_Ioi 0) ?_ ?_
  · intro s hs
    exact ((hasDerivAt_bs_formula hS hK hT hs kind).continuousAt).continuousWithinAt
  · intro s hs
    rw [interior_Ioi] at hs
    rw [(hasDerivAt_bs_formula hS hK hT hs kind).deriv]
    have := norm_pdf_pos (d1 S K T r s q)
    have := Real.sqrt_pos.mpr hT
    positivity

/-- No-arbitrage bound: the Black-Scholes formula always dominates the discounted
intrinsic floor checked by implied_volatility. -/
lemma iv_intrinsic_le_bs_formula {S K T r q sigma : ℝ} (hS : 0 < S) (hK : 0 < K)
    (hT : 0 < T) (hs : 0 < sigma) (kind : OptKind) :
    iv_intrinsic S K T r q kind ≤ bs_formula S K T r sigma kind q := by
  set d1v := d1 S K T r sigma q with hd1v
  set d2v := d2 S K T r sigma q with hd2v
  set u := (d1v + d2v) / 2 with hu
  set v := (d1v - d2v) / 2 with hv
  have hvnn : 0 ≤ v := by
    rw [hv, hd2v, d2_eq]
    have h1 : (0 : ℝ) < sigma * Real.sqrt T := mul_pos hs (Real.sqrt_pos.mpr hT)
    nlinarith
  have huv1 : u + v = d1v := by rw [hu, hv]; ring
  have huv2 : u - v = d2v := by rw [hu, hv]; ring
  have hexp : S * Real.exp (-q * T) = K * Real.exp (-r * T) * Real.exp (2 * u * v) := by
    have h2uv : 2 * u * v = Real.log (S / K) + (r - q) * T := by
      have hd := d_sq_diff (S := S) (K := K) (r := r) (q := q) hT hs
      rw [hu, hv]
      nlinarith [hd]
    have hel : Real.exp (2 * u * v) = S / K * Real.exp ((r - q) * T) := by
      rw [h2uv, Real.exp_add, Real.exp_log (div_pos hS hK)]
    have hh : Real.exp (-r * T) * Real.exp ((r - q) * T) = Real.exp (-q * T) := by
      rw [← Real.exp_add]
      congr 1
      ring
    rw [hel]
    calc S * Real.exp (-q * T)
        = S / K * K * Real.exp (-q * T) := by
          rw [div_mul_cancel₀ _ hK.ne']
      _ = K * Real.exp (-r * T) * (S / K * Real.exp ((r - q) * T)) := by
          rw [← hh]
          ring
  have hposK : (0 : ℝ) < K * Real.exp (-r * T) := by positivity
  have hposS : (0 : ℝ) < S * Real.exp (-q * T) := by positivity
  -- (a)  K' Phi(d2) <= S' Phi(d1)
  have ha : K * Real.exp (-r * T) * norm_cdf d2v ≤ S * Real.exp (-q * T) * norm_cdf d1v := by
    have h := norm_cdf_sub_le_exp_mul u hvnn
    rw [huv1, huv2] at h
    calc K * Real.exp (-r * T) * norm_cdf d2v
        ≤ K * Real.exp (-r * T) * (Real.exp (2 * u * v) * norm_cdf d1v) :=
          mul_le_mul_of_nonneg_left h hposK.le
      _ = S * Real.exp (-q * T) * norm_cdf d1v := by rw [hexp]; ring
  -- (b)  S' Phi(-d1) <= K' Phi(-d2)
  have hb : S * Real.exp (-q * T) * norm_cdf (-d1v)
      ≤ K * Real.exp (-r * T) * norm_cdf (-d2v) := by
    have h := norm_cdf_sub_le_exp_mul (-u) hvnn
    rw [show -u - v = -(u + v) by ring, show -u + v = -(u - v) by ring, huv1, huv2] at h
    have h2 : S * Real.exp (-q * T) * norm_cdf (-d1v)
        ≤ S * Real.exp (-q * T) * (Real.exp (2 * -u * v) * norm_cdf (-d2v)) :=
      mul_le_mul_of_nonneg_left h hposS.le
    calc S * Real.exp (-q * T) * norm_cdf (-d1v)
        ≤ S * Real.exp (-q * T) * (Real.exp (2 * -u * v) * norm_cdf (-d2v)) := h2
      _ = K * Real.exp (-r * T) * norm_cdf (-d2v) := by
          rw [hexp]
          rw [show (2 : ℝ) * -u * v = -(2 * u * v) by ring, Real.exp_neg]
          field_simp
          ring
  have hsymm1 : norm_cdf (-d1v) = 1 - norm_cdf d1v := by
    have := norm_cdf_add_neg d1v
    linarith
  have hsymm2 : norm_cdf (-d2v) = 1 - norm_cdf d2v := by
    have := norm_cdf_add_neg d2v
    linarith
  cases kind with
  | call =>
      show max 0 (S * Real.exp (-q * T) - K * Real.exp (-r * T))
        ≤ S * Real.exp (-q * T) * norm_cdf d1v - K * Real.exp (-r * T) * norm_cdf d2v
      refine max_le (by linarith) ?_
      rw [hsymm1, hsymm2] at hb
      nlinarith
  | put =>
      show max 0 (K * Real.exp (-r * T) - S * Real.exp (-q * T))
        ≤ K * Real.exp (-r * T) * norm_cdf (-d2v) - S * Real.exp (-q * T) * norm_cdf (-d1v)
      refine max_le (by linarith) ?_
      rw [hsymm1, hsymm2]
      nlinarith

/-- Put-call parity of the closed form, exact. -/
lemma bs_formula_parity (S K T r sigma q : ℝ) :
    bs_formula S K T r sigma OptKind.call q - bs_formula S K T r sigma OptKind.put q
      = S * Real.exp (-q * T) - K * Real.exp (-r * T) := by
  show S * Real.exp (-q * T) * norm_cdf (d1 S K T r sigma q) -
      K * Real.exp (-r * T) * norm_cdf (d2 S K T r sigma q) -
      (K * Real.exp (-r * T) * norm_cdf (-d2 S K T r sigma q) -
        S * Real.exp (-q * T) * norm_cdf (-d1 S K T r sigma q)) = _
  have h1 := norm_cdf_add_neg (d1 S K T r sigma q)
  have h2 := norm_cdf_add_neg (d2 S K T r sigma q)
  linear_combination (S * Real.exp (-q * T)) * h1 - (K * Real.exp (-r * T)) * h2

/-! ### Facts about the implied-volatility solver -/

lemma iv_objective_eq {market_price S K T r q sigma : ℝ} {kind : OptKind} (hT : 0 < T)
    (hs : 0 < sigma) :
    iv_objective market_price S K T r kind q sigma
      = bs_formula S K T r sigma kind q - market_price := by
  unfold iv_objective black_scholes_price
  rw [if_neg (not_le.mpr hT), if_neg (not_le.mpr hs)]

lemma brentq_eq_none {f : ℝ → ℝ} {a b xtol : ℝ} (h : ∀ x ∈ Icc a b, f x ≠ 0) :
    brentq f a b xtol = none := by
  unfold brentq
  rw [dif_neg]
  rintro ⟨y, ⟨x, hx, hfx, -⟩, -⟩
  exact h x hx hfx

lemma newton_iv_loop_ne_invalidInput (market_price S K T r q : ℝ) (kind : OptKind)
    (tol : ℝ) :
    ∀ (n : ℕ) (sigma : ℝ) (msg : String),
      newton_iv_loop market_price S K T r q kind tol n sigma
        ≠ .error (.invalidInput msg) := by
  intro n
  induction n with
  | zero =>
      intro sigma msg h
      rw [newton_iv_loop] at h
      injection h with h2
      exact PlatformError.noConfusion h2
  | succ k ih =>
      intro sigma msg h
      rw [newton_iv_loop] at h
      dsimp only at h
      split_ifs at h with h1 h2 h3 <;>
        first
          | (injection h with h2x; exact PlatformError.noConfusion h2x)
          | exact Except.noConfusion h
          | exact ih _ msg h

/-- C4 (amended): IV round-trip on the solver bracket.  For S,K,T > 0 and a true
volatility sigma0 inside the bracket [0.01, 5.00] searched by the solver, feeding the
Black-Scholes price back into implied_volatility recovers sigma0 to within 1e-4
(the bracketed search is guaranteed to within xtol = 1e-6). -/
theorem claim_C4_iv_round_trip {S K T r q sigma0 : ℝ} (hS : 0 < S) (hK : 0 < K)
    (hT : 0 < T) (hlo : 0.01 ≤ sigma0) (hhi : sigma0 ≤ 5) (kind : OptKind) :
    ∃ iv, implied_volatility (bs_formula S K T r sigma0 kind q) S K T r kind q = .ok iv
      ∧ |iv - sigma0| ≤ 1e-4 := by
  have hs0 : (0 : ℝ) < sigma0 := lt_of_lt_of_le (by norm_num) hlo
  set mp := bs_formula S K T r sigma0 kind q with hmp
  set f := iv_objective mp S K T r kind q with hf
  have hmono := bs_formula_strictMonoOn (r := r) (q := q) hS hK hT kind
  have hfeq : ∀ x : ℝ, 0 < x → f x = bs_formula S K T r x kind q - mp := fun x hx =>
    iv_objective_eq hT hx
  have hcond : ∃ y, (∃ x, x ∈ Icc (0.01 : ℝ) 5.0 ∧ f x = 0 ∧ |y - x| ≤ 1e-6) ∧
      f 0.01 * f 5.0 ≤ 0 := by
    have hmem : sigma0 ∈ Icc (0.01 : ℝ) 5.0 := ⟨hlo, by norm_num [hhi]⟩
    have hroot : f sigma0 = 0 := by
      rw [hfeq sigma0 hs0, ← hmp, sub_self]
    have hlow : f 0.01 ≤ 0 := by
      rw [hfeq 0.01 (by norm_num)]
      have h1 := hmono.monotoneOn (mem_Ioi.mpr (by norm_num : (0 : ℝ) < 0.01))
        (mem_Ioi.mpr hs0) hlo
      simp only at h1
      rw [hmp]
      linarith
    have hhigh : 0 ≤ f 5.0 := by
      rw [hfeq 5.0 (by norm_num)]
      have h1 := hmono.monotoneOn (mem_Ioi.mpr hs0)
        (mem_Ioi.mpr (by norm_num : (0 : ℝ) < 5.0)) (by norm_num [hhi])
      simp only at h1
      rw [hmp]
      linarith
    exact ⟨sigma0, ⟨sigma0, hmem, hroot, by norm_num⟩,
      mul_nonpos_iff.mpr (Or.inr ⟨hlow, hhigh⟩)⟩
  have hbq : brentq f 0.01 5.0 1e-6 = some hcond.choose := by
    unfold brentq
    rw [dif_pos hcond]
  obtain ⟨⟨x, hxmem, hfx, hyx⟩, -⟩ := hcond.choose_spec
  have hx0 : (0 : ℝ) < x := lt_of_lt_of_le (by norm_num) hxmem.1
  have hxeq : x = sigma0 := by
    have hbs : (fun s => bs_formula S K T r s kind q) x
        = (fun s => bs_formula S K T r s kind q) sigma0 := by
      have h1 := hfeq x hx0
      rw [hfx] at h1
      simp only [hmp] at h1 ⊢
      linarith
    exact hmono.injOn (mem_Ioi.mpr hx0) (mem_Ioi.mpr hs0) hbs
  refine ⟨hcond.choose, ?_, ?_⟩
  · unfold implied_volatility
    rw [if_neg (not_le.mpr hT),
      if_neg (not_lt.mpr (iv_intrinsic_le_bs_formula hS hK hT hs0 kind)), ← hf, hbq]
  · rw [hxeq] at hyx
    exact le_trans hyx (by norm_num)

/-- Witness for claim_C4_iv_round_trip at S = K = 1, T = 1, r = q = 0, sigma0 = 1. -/
theorem claim_C4_iv_round_trip_witness :
    (0 : ℝ) < 1 ∧ (0.01 : ℝ) ≤ 1 ∧ (1 : ℝ) ≤ 5 ∧
      ∃ iv, implied_volatility (bs_formula 1 1 1 0 1 OptKind.call 0) 1 1 1 0
          OptKind.call 0 = .ok iv ∧ |iv - 1| ≤ 1e-4 :=
  ⟨one_pos, by norm_num, by norm_num,
    claim_C4_iv_round_trip one_pos one_pos one_pos (by norm_num) (by norm_num)
      OptKind.call⟩

lemma d1_concrete_newton_seed :
    d1 1 (Real.exp 10) 1 0 0.3 0 = -(1991 / 60) := by
  unfold d1
  rw [one_div, Real.log_inv, Real.log_exp, Real.sqrt_one]
  norm_num

lemma norm_pdf_large_arg_small : norm_pdf (-(1991 / 60 : ℝ)) < 1e-10 := by
  rw [norm_pdf_even]
  have h1 : norm_pdf (1991 / 60 : ℝ) ≤ Real.exp (-(1991 / 60 : ℝ) ^ 2 / 2) := by
    unfold norm_pdf
    exact div_le_self (Real.exp_nonneg _) one_le_sqrt_two_pi
  have h2 : Real.exp (-(1991 / 60 : ℝ) ^ 2 / 2) ≤ Real.exp (-550) :=
    Real.exp_le_exp.mpr (by norm_num)
  have h3 : Real.exp (-(550 : ℝ)) < 1e-10 := by
    rw [Real.exp_neg]
    have h5 : (56 : ℝ) ≤ Real.exp 55 := by
      have := Real.add_one_le_exp (55 : ℝ)
      linarith
    have h4 : (10 : ℝ) ^ 10 < Real.exp 550 := by
      have h6 : Real.exp (550 : ℝ) = Real.exp 55 ^ 10 := by
        rw [← Real.exp_nat_mul]
        norm_num
      rw [h6]
      calc (10 : ℝ) ^ 10 < 56 ^ 10 := by norm_num
        _ ≤ Real.exp 55 ^ 10 := pow_le_pow_left₀ (by norm_num) h5 10
    have h7 : ((10 : ℝ) ^ 10)⁻¹ = 1e-10 := by norm_num
    rw [← h7]
    exact inv_strictAnti₀ (by positivity) h4
  linarith

/-- C4 counterexample: at S = 1, K = e^10, T = 1, r = q = 0 and true volatility
sigma0 = 6 (outside the bracket [0.01, 5]), the bracketed search finds no sign change,
the Newton fallback is seeded at sigma = 0.3 where raw vega is below 1e-10, and
implied_volatility raises instead of returning a value near sigma0. -/
theorem claim_C4_counterexample :
    implied_volatility (bs_formula 1 (Real.exp 10) 1 0 6 OptKind.call 0) 1 (Real.exp 10)
        1 0 OptKind.call 0
      = .error (.convergenceError "Vega too small, cannot converge") ∧
    ∀ iv : ℝ, ¬ (implied_volatility (bs_formula 1 (Real.exp 10) 1 0 6 OptKind.call 0) 1
        (Real.exp 10) 1 0 OptKind.call 0 = .ok iv ∧ |iv - 6| ≤ 1e-4) := by
  have hS : (0 : ℝ) < 1 := one_pos
  have hK : (0 : ℝ) < Real.exp 10 := Real.exp_pos _
  have hs6 : (0 : ℝ) < 6 := by norm_num
  set mp := bs_formula 1 (Real.exp 10) 1 0 6 OptKind.call 0 with hmp
  have hmono := bs_formula_strictMonoOn (S := 1) (K := Real.exp 10) (T := 1) (r := 0)
    (q := 0) hS hK hS OptKind.call
  have hmain : implied_volatility mp 1 (Real.exp 10) 1 0 OptKind.call 0
      = .error (.convergenceError "Vega too small, cannot converge") := by
    unfold implied_volatility
    rw [if_neg (by norm_num : ¬(1 : ℝ) ≤ 0),
      if_neg (not_lt.mpr (iv_intrinsic_le_bs_formula hS hK hS hs6 OptKind.call))]
    have hnone : brentq (iv_objective mp 1 (Real.exp 10) 1 0 OptKind.call 0)
        0.01 5.0 1e-6 = none := by
      apply brentq_eq_none
      intro x hx
      have hx0 : (0 : ℝ) < x := lt_of_lt_of_le (by norm_num) hx.1
      rw [iv_objective_eq hS hx0]
      have hlt : bs_formula 1 (Real.exp 10) 1 0 x OptKind.call 0 < mp := by
        rw [hmp]
        have := hmono (mem_Ioi.mpr hx0) (mem_Ioi.mpr hs6)
          (lt_of_le_of_lt hx.2 (by norm_num : (5.0 : ℝ) < 6))
        simpa using this
      linarith
    rw [hnone]
    show newton_iv_loop mp 1 (Real.exp 10) 1 0 0 OptKind.call 1e-6 100 0.3 = _
    have hv : (1 : ℝ) * Real.exp (-0 * 1) * norm_pdf (d1 1 (Real.exp 10) 1 0 0.3 0) *
        Real.sqrt 1 < 1e-10 := by
      rw [d1_concrete_newton_seed, Real.sqrt_one,
        show ((-0 : ℝ) * 1) = 0 by norm_num, Real.exp_zero, one_mul, one_mul, mul_one]
      exact norm_pdf_large_arg_small
    rw [show (100 : ℕ) = 99 + 1 from rfl, newton_iv_loop]
    dsimp only
    rw [if_pos hv]
  refine ⟨hmain, fun iv hcontra => ?_⟩
  rw [hmain] at hcontra
  exact Except.noConfusion hcontra.1

/-- C3: put-call parity.  For S, K, T > 0, sigma > 0 and any r, q, the call and put
prices returned by black_scholes_price differ by exactly S e^(-qT) - K e^(-rT),
in particular to within 1e-6. -/
theorem claim_C3_put_call_parity {S K T sigma : ℝ} (r q : ℝ) (hS : 0 < S) (hK : 0 < K)
    (hT : 0 < T) (hs : 0 < sigma) :
    ∃ c p, black_scholes_price S K T r sigma OptKind.call q = .ok c ∧
      black_scholes_price S K T r sigma OptKind.put q = .ok p ∧
      |c - p - (S * Real.exp (-q * T) - K * Real.exp (-r * T))| ≤ 1e-6 := by
  refine ⟨bs_formula S K T r sigma OptKind.call q, bs_formula S K T r sigma OptKind.put q,
    ?_, ?_, ?_⟩
  · unfold black_scholes_price
    rw [if_neg (not_le.mpr hT), if_neg (not_le.mpr hs)]
  · unfold black_scholes_price
    rw [if_neg (not_le.mpr hT), if_neg (not_le.mpr hs)]
  · rw [bs_formula_parity, sub_self, abs_zero]
    norm_num

/-- Witness for claim_C3_put_call_parity at S = K = T = sigma = 1, r = q = 0. -/
theorem claim_C3_put_call_parity_witness :
    (0 : ℝ) < 1 ∧
      ∃ c p, black_scholes_price 1 1 1 0 1 OptKind.call 0 = .ok c ∧
        black_scholes_price 1 1 1 0 1 OptKind.put 0 = .ok p ∧
        |c - p - (1 * Real.exp (-0 * 1) - 1 * Real.exp (-0 * 1))| ≤ 1e-6 :=
  ⟨one_pos, claim_C3_put_call_parity 0 0 one_pos one_pos one_pos one_pos⟩

/-- C5: expired-option boundary.  For T <= 0 (any sigma, unvalidated in this branch)
black_scholes_price returns exactly the intrinsic value and gamma, vega, theta and
rho each return exactly 0. -/
theorem claim_C5_expired_boundary (S K r sigma q : ℝ) {T : ℝ} (hT : T ≤ 0) :
    black_scholes_price S K T r sigma OptKind.call q = .ok (max 0 (S - K)) ∧
    black_scholes_price S K T r sigma OptKind.put q = .ok (max 0 (K - S)) ∧
    gamma S K T r sigma q = 0 ∧
    vega S K T r sigma q = 0 ∧
    (∀ kind, theta S K T r sigma kind q = 0) ∧
    (∀ kind, rho S K T r sigma kind q = 0) := by
  refine ⟨?_, ?_, ?_, ?_, fun kind => ?_, fun kind => ?_⟩
  · unfold black_scholes_price
    rw [if_pos hT]
  · unfold black_scholes_price
    rw [if_pos hT]
  · unfold gamma
    rw [if_pos hT]
  · unfold vega
    rw [if_pos hT]
  · unfold theta
    rw [if_pos hT]
  · unfold rho
    rw [if_pos hT]

/-- Witness for claim_C5_expired_boundary at S = 2, K = 1, T = 0, sigma = -3 (note the
unvalidated sigma), r = q = 0. -/
theorem claim_C5_expired_boundary_witness :
    (0 : ℝ) ≤ 0 ∧
      (black_scholes_price 2 1 0 0 (-3) OptKind.call 0 = .ok (max 0 (2 - 1)) ∧
       black_scholes_price 2 1 0 0 (-3) OptKind.put 0 = .ok (max 0 (1 - 2)) ∧
       gamma 2 1 0 0 (-3) 0 = 0 ∧
       vega 2 1 0 0 (-3) 0 = 0 ∧
       (∀ kind, theta 2 1 0 0 (-3) kind 0 = 0) ∧
       (∀ kind, rho 2 1 0 0 (-3) kind 0 = 0)) :=
  ⟨le_refl 0, claim_C5_expired_boundary 2 1 0 (-3) 0 (le_refl 0)⟩

/-- C6: implied_volatility fails with an InvalidInput-class error exactly when T <= 0
(with the expired-option message) or when the market price is strictly below the
no-arbitrage floor (with the below-intrinsic message); the branch ordering of the
source puts both checks before any root-finding, and a market price equal to the
floor passes on to root-finding (the inequality is strict). -/
theorem claim_C6_iv_invalid_input_iff (market_price S K T r q : ℝ) (kind : OptKind)
    (msg : String) :
    implied_volatility market_price S K T r kind q = .error (.invalidInput msg)
      ↔ (T ≤ 0 ∧ msg = "Cannot calculate IV for expired options") ∨
        (¬T ≤ 0 ∧ market_price < iv_intrinsic S K T r q kind ∧
          msg = "Market price below intrinsic value") := by
  unfold implied_volatility
  split_ifs with h1 h2
  · constructor
    · intro h
      injection h with hx
      injection hx with hm
      exact Or.inl ⟨h1, hm.symm⟩
    · rintro (⟨-, hm⟩ | ⟨hn, -, -⟩)
      · rw [hm]
      · exact absurd h1 hn
  · constructor
    · intro h
      injection h with hx
      injection hx with hm
      exact Or.inr ⟨h1, h2, hm.symm⟩
    · rintro (⟨ht, -⟩ | ⟨-, -, hm⟩)
      · exact absurd ht h1
      · rw [hm]
  · constructor
    · intro h
      exfalso
      rcases hbr : brentq (iv_objective market_price S K T r kind q) 0.01 5.0 1e-6 with
        _ | iv
      · rw [hbr] at h
        exact newton_iv_loop_ne_invalidInput market_price S K T r q kind 1e-6 100 0.3
          msg h
      · rw [hbr] at h
        exact Except.noConfusion h
    · rintro (⟨ht, -⟩ | ⟨-, hlt, -⟩)
      · exact absurd ht h1
      · exact absurd hlt h2

/-- C1 (documents the code bug): the end-to-end seller scenario of the spec.  A short
position entered through add_position with premium 7.50 per contract and quantity -10
stores premium_collected = +7.50, so calculate_position_pnl computes
(7.50 + 5.00) x 10 x 100 = 12500 option P&L and 166.67 percent ROI at a current option
price of 5.00 - not the 2500 and 33.3 percent that the spec scenario (and the
repository's own test and code comment) require. -/
theorem claim_C1_seller_scenario_code_result :
    (calculate_position_pnl
        (add_position 1 "AAPL" OptKind.call 145 30 (-10) 7.5 0.25 0 150 0.05)
        5 150).option_pnl = 12500 ∧
    (calculate_position_pnl
        (add_position 1 "AAPL" OptKind.call 145 30 (-10) 7.5 0.25 0 150 0.05)
        5 150).roi = 500 / 3 ∧
    (calculate_position_pnl
        (add_position 1 "AAPL" OptKind.call 145 30 (-10) 7.5 0.25 0 150 0.05)
        5 150).option_pnl ≠ 2500 ∧
    (calculate_position_pnl
        (add_position 1 "AAPL" OptKind.call 145 30 (-10) 7.5 0.25 0 150 0.05)
        5 150).roi ≠ 100 / 3 := by
  norm_num [calculate_position_pnl, add_position, OPTIONS_MULTIPLIER, abs_of_nonneg]

/-- C2 counterexample: a short sale (quantity -10, premium 7.50) stores
premium_collected = +7.50, which is not negative - the opposite of the claimed sign
convention. -/
theorem claim_C2_counterexample :
    (add_position 1 "AAPL" OptKind.call 145 30 (-10) 7.5 0.25 0 150 0.05
      ).premium_collected = 7.5 ∧
    ¬(add_position 1 "AAPL" OptKind.call 145 30 (-10) 7.5 0.25 0 150 0.05
      ).premium_collected < 0 := by
  norm_num [add_position]

/-- C2 (amended): for a positive premium argument, add_position stores
premium_collected positive for a short sale (quantity < 0) and negative for a long
purchase (quantity > 0) - the reverse of the spec's stated convention. -/
theorem claim_C2_amended (id0 : ℕ) (sym : String) (kind : OptKind) (strike : ℝ)
    (expd : ℤ) (qty : ℤ) {premium : ℝ} (iv dy cp rr : ℝ) (hp : 0 < premium) :
    (qty < 0 →
      0 < (add_position id0 sym kind strike expd qty premium iv dy cp rr
        ).premium_collected) ∧
    (0 < qty →
      (add_position id0 sym kind strike expd qty premium iv dy cp rr
        ).premium_collected < 0) := by
  have hpc : (add_position id0 sym kind strike expd qty premium iv dy cp rr
      ).premium_collected = if qty < 0 then premium else -premium := rfl
  rw [hpc]
  refine ⟨fun h => ?_, fun h => ?_⟩
  · rw [if_pos h]
    exact hp
  · rw [if_neg (not_lt.mpr h.le)]
    linarith

/-- Witness for claim_C2_amended at premium 7.50, quantity -10. -/
theorem claim_C2_amended_witness :
    (0 : ℝ) < 7.5 ∧
      (((-10 : ℤ) < 0 →
        0 < (add_position 1 "AAPL" OptKind.call 145 30 (-10) 7.5 0.25 0 150 0.05
          ).premium_collected) ∧
      ((0 : ℤ) < -10 →
        (add_position 1 "AAPL" OptKind.call 145 30 (-10) 7.5 0.25 0 150 0.05
          ).premium_collected < 0)) :=
  ⟨by norm_num, claim_C2_amended 1 "AAPL" OptKind.call 145 30 (-10) 0.25 0 150 0.05
    (by norm_num)⟩

/-- C7: the hedge-requirements report satisfies net_delta = position_delta +
current_hedge_shares and required_hedge_shares = -net_delta; should_rehedge is exactly
the test |net_delta / position_delta| > rehedge_threshold, and is false when
position_delta is exactly 0 (in that case the ratio test is also vacuously false,
division by zero yielding 0 in the embedding). -/
theorem claim_C7_hedge_requirements (env : MarketEnv) (pos : Position) :
    (calculate_hedge_requirements env pos).net_delta
        = (calculate_hedge_requirements env pos).position_delta
          + (calculate_hedge_requirements env pos).current_hedge_shares ∧
    (calculate_hedge_requirements env pos).required_hedge_shares
        = -(calculate_hedge_requirements env pos).net_delta ∧
    ((calculate_hedge_requirements env pos).should_rehedge = true ↔
      |(calculate_hedge_requirements env pos).net_delta /
        (calculate_hedge_requirements env pos).position_delta| > REHEDGE_THRESHOLD) ∧
    ((calculate_hedge_requirements env pos).position_delta = 0 →
      (calculate_hedge_requirements env pos).should_rehedge = false) := by
  have hsr : (calculate_hedge_requirements env pos).should_rehedge =
      if (calculate_hedge_requirements env pos).position_delta ≠ 0 then
        if |(calculate_hedge_requirements env pos).net_delta /
            (calculate_hedge_requirements env pos).position_delta| > REHEDGE_THRESHOLD
          then true else false
      else false := rfl
  refine ⟨rfl, rfl, ?_, ?_⟩
  · rw [hsr]
    split_ifs with h1 h2
    · simpa using h2
    · simpa using h2
    · push_neg at h1
      rw [h1]
      constructor
      · intro h
        exact absurd h (by norm_num)
      · intro h
        rw [div_zero, abs_zero] at h
        exact absurd h (by norm_num [REHEDGE_THRESHOLD])
  · intro h0
    rw [hsr, if_neg]
    simpa using h0

/-- C8: every Hedge row built by execute_hedge satisfies
delta_after = delta_before + hedge_quantity, and with the shares argument omitted
(default: the calculated required_hedge_shares) the resulting net delta delta_after
is exactly 0, in particular within 0.01 of zero. -/
theorem claim_C8_execute_hedge_invariant (env : MarketEnv) (pos : Position)
    (shares : Option ℝ) (hedge_type : String) :
    (execute_hedge_record env pos shares hedge_type).1.delta_after
        = (execute_hedge_record env pos shares hedge_type).1.delta_before
          + (execute_hedge_record env pos shares hedge_type).1.hedge_quantity ∧
    (execute_hedge_record env pos none hedge_type).1.delta_after = 0 ∧
    |(execute_hedge_record env pos none hedge_type).1.delta_after| ≤ 0.01 := by
  have hzero : (execute_hedge_record env pos none hedge_type).1.delta_after = 0 := by
    show (calculate_hedge_requirements env pos).net_delta +
        (Option.getD none (calculate_hedge_requirements env pos).required_hedge_shares)
      = 0
    show (calculate_hedge_requirements env pos).net_delta +
      (-(calculate_hedge_requirements env pos).net_delta) = 0
    ring
  exact ⟨rfl, hzero, by rw [hzero]; norm_num⟩

lemma foldl_auto_rehedge_false (env : MarketEnv) :
    ∀ (l : List Position)
      (acc : DBState × List RehedgeRecommendation × List RehedgeExecuted),
      (l.foldl (auto_rehedge_step env false) acc).1 = acc.1 ∧
      (l.foldl (auto_rehedge_step env false) acc).2.2 = acc.2.2 := by
  intro l
  induction l with
  | nil => exact fun acc => ⟨rfl, rfl⟩
  | cons p tl ih =>
      intro acc
      rw [List.foldl_cons]
      have hstep : (auto_rehedge_step env false acc p).1 = acc.1 ∧
          (auto_rehedge_step env false acc p).2.2 = acc.2.2 := by
        cases hn : (check_rehedge_needed env acc.1 p.id).needed with
        | false => simp [auto_rehedge_step, hn]
        | true => simp [auto_rehedge_step, hn]
      obtain ⟨h1, h2⟩ := ih (auto_rehedge_step env false acc p)
      exact ⟨h1.trans hstep.1, h2.trans hstep.2⟩

/-- C9: auto-rehedge with execute = false is read-only: the store (all positions,
their hedge collections, and the trade log) is returned unchanged, the executed list
is empty, the executed count and total cost are zero; only recommendations are
produced. -/
theorem claim_C9_auto_rehedge_readonly (env : MarketEnv) (st : DBState) :
    (auto_rehedge_positions env st false).1 = st ∧
    (auto_rehedge_positions env st false).2.executed = [] ∧
    (auto_rehedge_positions env st false).2.total_executed = 0 ∧
    (auto_rehedge_positions env st false).2.total_cost = 0 := by
  have h := foldl_auto_rehedge_false env
    (st.positions.filter fun p => p.status == .openPos) (st, [], [])
  exact ⟨h.1, rfl, rfl, rfl⟩

/-- C10: check_rehedge_needed does not fail on an unknown position id or a non-open
position; it returns the short result with needed = false and reason
"Position not open". -/
theorem claim_C10_check_rehedge_not_open (env : MarketEnv) (st : DBState) (pid : ℕ)
    (h : st.positions.find? (fun p => p.id == pid) = none ∨
      ∃ pos, st.positions.find? (fun p => p.id == pid) = some pos ∧
        pos.status ≠ .openPos) :
    (check_rehedge_needed env st pid).needed = false ∧
    (check_rehedge_needed env st pid).reason = some "Position not open" := by
  rcases h with hnone | ⟨pos, hfind, hstat⟩
  · unfold check_rehedge_needed
    rw [hnone]
    exact ⟨rfl, rfl⟩
  · unfold check_rehedge_needed
    rw [hfind]
    dsimp only
    rw [if_pos hstat]
    exact ⟨rfl, rfl⟩

/-- Witness for claim_C10_check_rehedge_not_open: an empty store and position id 1. -/
theorem claim_C10_check_rehedge_not_open_witness :
    ((DBState.mk [] []).positions.find? (fun p => p.id == 1) = none ∨
      ∃ pos, (DBState.mk [] []).positions.find? (fun p => p.id == 1) = some pos ∧
        pos.status ≠ .openPos) ∧
    (check_rehedge_needed (MarketEnv.mk (fun _ => 0) 0) (DBState.mk [] []) 1).needed
        = false ∧
    (check_rehedge_needed (MarketEnv.mk (fun _ => 0) 0) (DBState.mk [] []) 1).reason
        = some "Position not open" :=
  ⟨Or.inl rfl,
    claim_C10_check_rehedge_not_open (MarketEnv.mk (fun _ => 0) 0) (DBState.mk [] []) 1
      (Or.inl rfl)⟩
